import Mathlib

/-!
Shallow embedding of the `rust_debug` overlay core
(`src/font/overlay/src/{counter,lib,graph,table}.rs`).

Modelling conventions:
* `f32` values are modelled over `ℚ`.  The code uses NaN (and more generally
  non-finite floats) as an "unset / no data / no sample" sentinel, always
  guarded by `is_finite()` checks; we model a possibly-non-finite `f32` slot
  as `Option ℚ` with `none` standing for the non-finite sentinel, and a slot
  that always holds a finite float as a plain `ℚ`.  Float arithmetic is
  modelled as exact rational arithmetic.
* `std::f32::MAX` / `std::f32::MIN` are the concrete finite extremes,
  modelled by the exact rational value of `f32::MAX` and its negation.
* machine integers are modelled as `Nat`/`Int`, with explicit reductions
  modulo `2 ^ w` exactly where the compiled Rust code wraps.
-/

namespace RustDebug

/-- Largest finite value of an IEEE-754 binary32 float, the value of
`std::f32::MAX`: (2^24 - 1) * 2^104. -/
def f32Max : ℚ := (2 ^ 24 - 1) * 2 ^ 104

/-- An 8-bit per channel RGBA color value, `type Color = (u8, u8, u8, u8)`. -/
def Color := Nat × Nat × Nat × Nat

instance : DecidableEq Color := by
  unfold Color
  infer_instance

/-- Numeric display format of a counter (counter.rs, `enum Format`). -/
inductive Format where
  | Int
  | Float
deriving DecidableEq

/-- Axis orientation (counter.rs, `enum Orientation`). -/
inductive Orientation where
  | Vertical
  | Horizontal
deriving DecidableEq

/-- Immutable counter metadata (counter.rs, `struct CounterDescriptor`).
The `id` field is a `CounterId(u16)`; we model it as the underlying `Nat`.
`safe_range` is a `Range of f32` modelled as a pair (start, end). -/
structure CounterDescriptor where
  name : String
  unit : String
  id : Nat
  format : Format
  color : Color
  safe_range : Option (ℚ × ℚ)
deriving DecidableEq

/-- Mutable per-counter state (counter.rs, `struct Counter`).
`current_value`, `last_value` and the `displayed_*` fields use the NaN
sentinel in the source and are therefore `Option ℚ` here; `sum`, `samples`,
`min` and `max` always hold finite floats.  The history `VecDeque of f32`
stores NaN markers for frames without a sample, hence `List (Option ℚ)`. -/
structure Counter where
  current_value : Option ℚ
  last_value : Option ℚ
  sum : ℚ
  samples : ℚ
  min : ℚ
  max : ℚ
  displayed_avg : Option ℚ
  displayed_min : Option ℚ
  displayed_max : Option ℚ
  descriptor : CounterDescriptor
  history : List (Option ℚ)
deriving DecidableEq

/-- Counter construction (counter.rs, `Counter::new`). -/
def Counter.new (descriptor : CounterDescriptor) : Counter where
  current_value := none
  last_value := none
  sum := 0
  samples := 0
  min := 0
  max := 0
  displayed_avg := none
  displayed_min := none
  displayed_max := none
  descriptor := descriptor
  history := []

/-- Setting this frame's pending sample (counter.rs, `Counter::set`).
`set(None)` (i.e. recording no observation) stores the NaN sentinel in
`current_value` and leaves `last_value` untouched. -/
def Counter.set (c : Counter) (value : Option ℚ) : Counter :=
  match value with
  | some val => { c with current_value := some val, last_value := some val }
  | none => { c with current_value := none }

/-- Per-frame commit (counter.rs, `Counter::update`).  Accumulates the
pending sample into the window when it is finite, rotates the history
buffer when history is enabled, clears the pending value, and on a window
boundary (`update_avg = true`) publishes the displayed aggregates and
resets the window accumulators (`min` to `std::f32::MAX`, `max` to
`std::f32::MIN`). -/
def Counter.update (c : Counter) (update_avg : Bool) : Counter :=
  let c :=
    match c.current_value with
    | some v =>
        { c with
          samples := c.samples + 1
          sum := c.sum + v
          min := Min.min c.min v
          max := Max.max c.max v }
    | none => c
  let c :=
    if c.history.isEmpty then c
    else { c with history := c.history.tail ++ [c.current_value] }
  let c := { c with current_value := none }
  if update_avg then
    if c.samples > 0 then
      { c with
        displayed_avg := some (c.sum / c.samples)
        displayed_max := some c.max
        displayed_min := some c.min
        samples := 0
        sum := 0
        min := f32Max
        max := -f32Max }
    else
      { c with
        displayed_avg := none
        displayed_max := none
        displayed_min := none
        samples := 0
        sum := 0
        min := f32Max
        max := -f32Max }
  else
    c

/-- History query (counter.rs, `Counter::history`).  Returns `none` when the
buffer is empty ("no history"); otherwise the iterator maps each stored
float to `none` when it is non-finite ("no sample"), which our `Option ℚ`
slots already encode. -/
def Counter.historyQuery (c : Counter) : Option (List (Option ℚ)) :=
  if c.history.isEmpty then none else some c.history

/-- History activation (counter.rs, `Counter::enable_history`): clears the
buffer and fills it with exactly `samples` NaN ("no sample") slots. -/
def Counter.enable_history (c : Counter) (samples : Nat) : Counter :=
  { c with history := List.replicate samples none }

/-- History deactivation (counter.rs, `Counter::disable_history`). -/
def Counter.disable_history (c : Counter) : Counter :=
  { c with history := [] }

/-- A named contiguous id range (counter.rs, `struct Group`); the `u16`
range endpoints are modelled as `Nat`. -/
structure Group where
  name : String
  range_start : Nat
  range_end : Nat
deriving DecidableEq

/-- Contiguous range of counter ids handed back by registration
(counter.rs, `struct CounterGroup`). -/
structure CounterGroup where
  start : Nat
  stop : Nat
deriving DecidableEq

/-- Counter registry (counter.rs, `struct Counters`); `counter_avg_window`
and `frame_idx` are `u32` fields modelled as `Nat`. -/
structure Counters where
  groups : List Group
  counters : List Counter
  history_size : Nat
  counter_avg_window : Nat
  frame_idx : Nat

/-- Registry construction (counter.rs, `Counters::new`); the averaging
window defaults to 30 frames. -/
def Counters.new (history_size : Nat) : Counters where
  groups := []
  counters := []
  history_size := history_size
  counter_avg_window := 30
  frame_idx := 0

/-- The sequential id check performed by the registration loop
(counter.rs, `Counters::register_group`): `assert_eq!(desc.id.index(), idx)`
with `idx` counting up from 0. -/
def checkIds : Nat → List CounterDescriptor → Bool
  | _, [] => true
  | idx, d :: rest => d.id == idx && checkIds (idx + 1) rest

/-- Group registration (counter.rs, `Counters::register_group`).  The two
`assert!`s (capacity `end < u16::MAX` and the per-descriptor id check) are
fatal panics in the source, modelled as `none`. -/
def Counters.register_group (cs : Counters) (name : String)
    (descriptors : List CounterDescriptor) : Option (Counters × CounterGroup) :=
  let start := cs.counters.length
  let stop := start + descriptors.length
  if stop < 65535 then
    if checkIds 0 descriptors then
      some
        ({ cs with
            groups := cs.groups ++ [⟨name, start, stop⟩]
            counters := cs.counters ++ descriptors.map Counter.new },
          ⟨start, stop⟩)
    else none
  else none

/-- Per-frame registry tick (counter.rs, `Counters::update`): increments the
`u32` frame counter (wrapping modulo 2^32), updates every counter with the
boundary flag, and resets the frame counter to 0 on a boundary frame. -/
def Counters.update (cs : Counters) : Counters :=
  let fi := (cs.frame_idx + 1) % 2 ^ 32
  let update_avg := fi == cs.counter_avg_window
  { cs with
    counters := cs.counters.map (fun c => c.update update_avg)
    frame_idx := if update_avg then 0 else fi }

/-- Iterated registry ticks: `iterUpdate k cs` is the state after `k`
calls to `Counters::update`. -/
def iterUpdate : Nat → Counters → Counters
  | 0, cs => cs
  | k + 1, cs => (iterUpdate k cs).update

/-- A concrete float counter descriptor, as used by the `history` test in
counter.rs. -/
def exampleDescriptor : CounterDescriptor where
  name := "foo"
  unit := ""
  id := 0
  format := Format.Float
  color := (255, 255, 255, 255)
  safe_range := none

/-- The history-rotation example sequence from the spec and the `history`
test in counter.rs: `enable_history(6)` then five set/update frames with
values 1, 2, none, 4, 5. -/
def historyExampleCounter : Counter :=
  (((((((((((Counter.new exampleDescriptor).enable_history 6).set
      (some 1)).update false).set (some 2)).update false).set
      none).update false).set (some 4)).update false).set (some 5)).update false

/-- Specification-side restatement of the window-boundary commit block of
`Counter::update` (the body of the `if update_avg` branch), used to relate
a boundary update to the corresponding non-boundary update. -/
def commitAvg (c : Counter) : Counter :=
  if c.samples > 0 then
    { c with
      displayed_avg := some (c.sum / c.samples)
      displayed_max := some c.max
      displayed_min := some c.min
      samples := 0
      sum := 0
      min := f32Max
      max := -f32Max }
  else
    { c with
      displayed_avg := none
      displayed_max := none
      displayed_min := none
      samples := 0
      sum := 0
      min := f32Max
      max := -f32Max }

/-- One averaging window executed on a counter: each element of `vals` is
one frame's pending sample (`set` then `update`); every frame is a
non-boundary update except the last, which carries the boundary flag --
exactly how `Counters::update` drives a counter through its first window. -/
def runWindow (c : Counter) : List (Option ℚ) → Counter
  | [] => c
  | [v] => ((c.set v).update true)
  | v :: rest => runWindow ((c.set v).update false) rest

/-- Index of the background geometry layer (lib.rs, `BACKGROUND_LAYER`). -/
def BACKGROUND_LAYER : Nat := 0

/-- Index of the foreground geometry layer (lib.rs, `FRONT_LAYER`). -/
def FRONT_LAYER : Nat := 1

/-- A 2D position in pixels with `i32` coordinates (lib.rs, `struct
Point`). -/
structure Point where
  x : Int
  y : Int
deriving DecidableEq

/-- Packing of an RGBA color into a `u32` (lib.rs, `color_to_u32`); the
four channels are bytes, so the shifted fields never overlap. -/
def color_to_u32 (c : Color) : Nat :=
  (c.1 <<< 24) ||| (c.2.1 <<< 16) ||| (c.2.2.1 <<< 8) ||| c.2.2.2

/-- One output vertex (lib.rs, `struct Vertex`): an f32 position (modelled
over ℚ; the `i32 as f32` casts in the source are exact for on-screen
coordinates and modelled as exact coercions) with packed u32 uv and
color. -/
structure Vertex where
  x : ℚ
  y : ℚ
  uv : Nat
  color : Nat
deriving DecidableEq

/-- The per-layer vertex/index accumulator (lib.rs, `struct
OverlayGeometry` with its `LayerGeometry` layers): one shared vertex pool
and one `u16` index list per layer. -/
structure OverlayGeometry where
  vertices : List Vertex
  layers : List (List Nat)
deriving DecidableEq

/-- Geometry construction (lib.rs, `OverlayGeometry::new`). -/
def OverlayGeometry.new (layer_count : Nat) : OverlayGeometry where
  vertices := []
  layers := List.replicate layer_count []

/-- Per-frame reset (lib.rs, `OverlayGeometry::begin_frame`). -/
def OverlayGeometry.begin_frame (g : OverlayGeometry) : OverlayGeometry where
  vertices := []
  layers := g.layers.map (fun _ => [])

/-- Modelled from the spec: the glyph-atlas entry of the generated
`embedded_font.rs` module, which is not among the sources; its exact shape
is fixed by the code generator (`font/generator/src/main.rs`,
`generate_code`): uv corners as `u16` pairs, an `i16` pixel offset and an
`f32` advance width. -/
structure GlyphInfo where
  uv0 : Nat × Nat
  uv1 : Nat × Nat
  offset : Int × Int
  x_advance : ℚ
deriving DecidableEq

/-- Modelled from the spec: the glyph atlas interface of spec section 6,
i.e. the constants of the generated `embedded_font.rs` module
(`FIRST_CHAR : u32`, `FONT_HEIGHT : u32`, `OPAQUE_PIXEL : (u16, u16)`,
`GLYPH_INFO`), passed explicitly since the generated module is not among
the sources. -/
structure FontTable where
  first_char : Nat
  font_height : Nat
  opaque_pixel : Nat × Nat
  glyph_info : List GlyphInfo
deriving DecidableEq

/-- Wrapping `usize` subtraction as compiled for a 64-bit target: the
semantics of `c as usize - FIRST_CHAR as usize` in release builds. -/
def usizeSub (a b : Nat) : Nat := (a + 2 ^ 64 - b % 2 ^ 64) % 2 ^ 64

/-- Wrapping `u16` subtraction zero-extended to `i32`: the semantics of
`(a - b) as i32` on `u16` operands in release builds. -/
def u16SubToI32 (a b : Nat) : Int := ((a + 2 ^ 16 - b % 2 ^ 16) % 2 ^ 16 : Nat)

/-- Truncation of a rational toward zero. -/
def ratTrunc (q : ℚ) : Int := if 0 ≤ q then ⌊q⌋ else -⌊-q⌋

/-- Saturating float-to-i32 conversion (the semantics of Rust `as i32` on
a finite f32 value) on the rational model: truncate toward zero and clamp
to the i32 range. -/
def i32OfRat (q : ℚ) : Int :=
  Max.max (-(2 ^ 31)) (Min.min (2 ^ 31 - 1) (ratTrunc q))

/-- The default glyph entry handed to the guarded list lookup in the
`push_text` model; it is never selected because the lookup index is
bounds-checked first, mirroring `idx >= GLYPH_INFO.len()`. -/
def defaultGlyph : GlyphInfo where
  uv0 := (0, 0)
  uv1 := (0, 0)
  offset := (0, 0)
  x_advance := 0

/-- The character loop of `OverlayGeometry::push_text` (lib.rs lines
109-148), carrying the pen position, the running bounding box and the
geometry. A newline resets the pen; a character whose wrapped table index
is out of range is skipped; otherwise one textured quad (4 vertices, 6
indices with the u16 base offset) is emitted and the pen advances. -/
def push_textLoop (ft : FontTable) (layer : Nat) (color : Nat) :
    List Char → Point → Point → Point → OverlayGeometry
    → (Point × Point) × OverlayGeometry
  | [], _, mn, mx, g => ((mn, mx), g)
  | ch :: rest, pos, mn, mx, g =>
      if ch = '\n' then
        push_textLoop ft layer color rest
          ⟨mn.x, pos.y + (ft.font_height : Int)⟩ mn mx g
      else
        let idx := usizeSub ch.toNat ft.first_char
        if ft.glyph_info.length ≤ idx then
          push_textLoop ft layer color rest pos mn mx g
        else
          let glyph := ft.glyph_info.getD idx defaultGlyph
          let uv0x := glyph.uv0.1 <<< 16
          let uv0y := glyph.uv0.2
          let uv1x := glyph.uv1.1 <<< 16
          let uv1y := glyph.uv1.2
          let x0 := pos.x + glyph.offset.1
          let y0 := pos.y + glyph.offset.2
          let x1 := x0 + u16SubToI32 glyph.uv1.1 glyph.uv0.1
          let y1 := y0 + u16SubToI32 glyph.uv1.2 glyph.uv0.2
          let offset := g.vertices.length % 2 ^ 16
          let verts : List Vertex :=
            [⟨(x0 : ℚ), (y0 : ℚ), uv0x ||| uv0y, color⟩,
             ⟨(x1 : ℚ), (y0 : ℚ), uv1x ||| uv0y, color⟩,
             ⟨(x1 : ℚ), (y1 : ℚ), uv1x ||| uv1y, color⟩,
             ⟨(x0 : ℚ), (y1 : ℚ), uv0x ||| uv1y, color⟩]
          let idxs := [0, 1, 2, 0, 2, 3].map (fun i => (offset + i) % 2 ^ 16)
          let g : OverlayGeometry :=
            { vertices := g.vertices ++ verts
              layers := g.layers.set layer ((g.layers.getD layer []) ++ idxs) }
          push_textLoop ft layer color rest
            ⟨pos.x + i32OfRat glyph.x_advance, pos.y⟩
            ⟨Min.min mn.x x0, Min.min mn.y y0⟩
            ⟨Max.max mx.x x1, Max.max mx.y y1⟩ g

/-- Text tessellation (lib.rs, `OverlayGeometry::push_text`): returns the
bounding box of the emitted glyphs together with the updated geometry. -/
def OverlayGeometry.push_text (g : OverlayGeometry) (ft : FontTable)
    (layer : Nat) (text : String) (position : Point) (color : Color) :
    (Point × Point) × OverlayGeometry :=
  push_textLoop ft layer (color_to_u32 color) text.toList
    position position position g

/-- Gradient quad emission (lib.rs, `OverlayGeometry::push_rectangle`):
one quad sampling the designated opaque atlas texel, top edge in `color0`,
bottom edge in `color1`. -/
def OverlayGeometry.push_rectangle (g : OverlayGeometry) (ft : FontTable)
    (layer : Nat) (r : Point × Point) (color0 color1 : Color) :
    OverlayGeometry :=
  let uv := (ft.opaque_pixel.1 <<< 16) ||| ft.opaque_pixel.2
  let c0 := color_to_u32 color0
  let c1 := color_to_u32 color1
  let offset := g.vertices.length % 2 ^ 16
  let verts : List Vertex :=
    [⟨(r.1.x : ℚ), (r.1.y : ℚ), uv, c0⟩,
     ⟨(r.2.x : ℚ), (r.1.y : ℚ), uv, c0⟩,
     ⟨(r.2.x : ℚ), (r.2.y : ℚ), uv, c1⟩,
     ⟨(r.1.x : ℚ), (r.2.y : ℚ), uv, c1⟩]
  let idxs := [0, 1, 2, 0, 2, 3].map (fun i => (offset + i) % 2 ^ 16)
  { vertices := g.vertices ++ verts
    layers := g.layers.set layer ((g.layers.getD layer []) ++ idxs) }

/-- Style constants (lib.rs, `struct Style`). -/
structure Style where
  margin : Int
  line_spacing : Int
  min_group_width : Int
  min_group_height : Int
  column_spacing : Int
  background : Color × Color
  text_color : Color × Color
  title_color : Color
  highlight_color : Color
deriving DecidableEq

/-- Default style (lib.rs, `impl Default for Style`). -/
def Style.defaultStyle : Style where
  margin := 10
  line_spacing := 2
  min_group_width := 0
  min_group_height := 0
  column_spacing := 20
  background := ((0, 0, 0, 255), (0, 0, 0, 200))
  text_color := ((255, 255, 255, 255), (200, 200, 200, 255))
  title_color := (120, 150, 255, 255)
  highlight_color := (255, 100, 100, 255)

/-- The immediate-mode layout engine state (lib.rs, `struct Overlay`). -/
structure Overlay where
  geometry : OverlayGeometry
  style : Style
  cursor : Point
  item_flow : Orientation
  group_flow : Orientation
  string_buffer : String
  group_area : Point × Point
  in_group : Bool
  max_x : Int
  max_y : Int
deriving DecidableEq

/-- Overlay construction (lib.rs, `Overlay::new`). -/
def Overlay.new : Overlay :=
  let style := Style.defaultStyle
  let cursor : Point := ⟨style.margin, style.margin⟩
  { geometry := OverlayGeometry.new 2
    style := style
    cursor := cursor
    item_flow := Orientation.Horizontal
    group_flow := Orientation.Vertical
    string_buffer := ""
    group_area := (cursor, cursor)
    in_group := false
    max_x := 0
    max_y := 0 }

/-- Width of the currently open group rectangle (lib.rs,
`Overlay::current_group_width`). -/
def Overlay.current_group_width (ov : Overlay) : Int :=
  ov.group_area.2.x - ov.group_area.1.x

/-- Height of the currently open group rectangle (lib.rs,
`Overlay::current_group_height`). -/
def Overlay.current_group_height (ov : Overlay) : Int :=
  ov.group_area.2.y - ov.group_area.1.y

/-- Opening a new layout group (lib.rs, `Overlay::begin_group`): places
the cursor after the previous group along the group-flow axis (with a 3x
margin gap when a previous group exists this frame) and marks the group
open with a degenerate rectangle. -/
def Overlay.begin_group (ov : Overlay) : Overlay :=
  let cursor : Point :=
    match ov.group_flow with
    | Orientation.Vertical =>
        let margin := if ov.group_area.2.y > ov.style.margin
          then ov.style.margin * 3 else 0
        ⟨ov.group_area.1.x, ov.group_area.2.y + margin⟩
    | Orientation.Horizontal =>
        let margin := if ov.group_area.2.x > ov.style.margin
          then ov.style.margin * 3 else 0
        ⟨ov.group_area.2.x + margin, ov.group_area.1.y⟩
  { ov with cursor := cursor, group_area := (cursor, cursor), in_group := true }

/-- Drawing one widget (lib.rs, `Overlay::draw_item`); the widget is a
function from its assigned origin and the overlay to the rectangle it
occupied and the mutated overlay (the `OverlayItem::draw` trait method).
The placement cursor is recomputed from the open group's rectangle along
the item-flow axis, the widget is invoked, and the group rectangle is
expanded to the union with the returned rectangle. -/
def Overlay.draw_item (ov : Overlay)
    (item : Point → Overlay → (Point × Point) × Overlay) : Overlay :=
  let first := !ov.in_group
  let ov := if ov.in_group then ov else ov.begin_group
  let margin := if first then 0 else ov.style.margin
  let cursor : Point :=
    match ov.item_flow with
    | Orientation.Vertical =>
        ⟨ov.group_area.1.x, ov.group_area.2.y + margin⟩
    | Orientation.Horizontal =>
        ⟨ov.group_area.2.x + margin, ov.group_area.1.y⟩
  let ov := { ov with cursor := cursor }
  let (rect, ov) := item cursor ov
  { ov with
    group_area :=
      (⟨Min.min ov.group_area.1.x rect.1.x, Min.min ov.group_area.1.y rect.1.y⟩,
       ⟨Max.max ov.group_area.2.x rect.2.x, Max.max ov.group_area.2.y rect.2.y⟩) }

/-- Whitespace separator (lib.rs, `Overlay::push_separator`): inside an
open group, advances the cursor by 3x the margin along the item-flow
axis; outside a group it does nothing. -/
def Overlay.push_separator (ov : Overlay) : Overlay :=
  if ov.in_group then
    match ov.item_flow with
    | Orientation.Vertical =>
        { ov with cursor := ⟨ov.cursor.x, ov.cursor.y + ov.style.margin * 3⟩ }
    | Orientation.Horizontal =>
        { ov with cursor := ⟨ov.cursor.x + ov.style.margin * 3, ov.cursor.y⟩ }
  else ov

/-- Closing the open group (lib.rs, `Overlay::end_group`): a degenerate
group is discarded; otherwise the rectangle is grown to the configured
minimum size, the running maxima are updated and a background panel
(inflated by one margin, two-stop vertical gradient) is pushed into the
background layer. -/
def Overlay.end_group (ov : Overlay) (ft : FontTable) : Overlay :=
  let ov := { ov with in_group := false }
  if ov.group_area.1.x ≥ ov.group_area.2.x
      ∨ ov.group_area.1.y ≥ ov.group_area.2.y then ov
  else
    let ga2 : Point :=
      ⟨Max.max ov.group_area.2.x (ov.group_area.1.x + ov.style.min_group_width),
       Max.max ov.group_area.2.y (ov.group_area.1.y + ov.style.min_group_height)⟩
    let bg : Point × Point :=
      (⟨ov.group_area.1.x - ov.style.margin, ov.group_area.1.y - ov.style.margin⟩,
       ⟨ga2.x + ov.style.margin, ga2.y + ov.style.margin⟩)
    { ov with
      group_area := (ov.group_area.1, ga2)
      max_x := Max.max ov.max_x ga2.x
      max_y := Max.max ov.max_y ga2.y
      geometry := ov.geometry.push_rectangle ft BACKGROUND_LAYER bg
        ov.style.background.1 ov.style.background.2 }

/-- Column break (lib.rs, `Overlay::push_column`): closes any open group
and restarts the group area to the right of the widest extent. -/
def Overlay.push_column (ov : Overlay) (ft : FontTable) : Overlay :=
  let ov := if ov.in_group then ov.end_group ft else ov
  let p : Point := ⟨ov.max_x + ov.style.margin * 3, ov.style.margin⟩
  { ov with group_area := (p, p) }

/-- Frame finalization (lib.rs, `Overlay::finish`). -/
def Overlay.finish (ov : Overlay) (ft : FontTable) : Overlay :=
  if ov.in_group then ov.end_group ft else ov

/-- Aggregate statistics returned by the graph renderer (graph.rs,
`struct GraphStats`); the f32 NaN sentinels are `none`, the `u32` counts
are `Nat`. -/
structure GraphStats where
  avg : Option ℚ
  min : Option ℚ
  max : Option ℚ
  samples_active : Nat
  samples_total : Nat
deriving DecidableEq

/-- The all-"no data" statistics value returned by `draw_graph` when it
draws nothing (graph.rs lines 121-127 and 162-168). -/
def noDataStats : GraphStats where
  avg := none
  min := none
  max := none
  samples_active := 0
  samples_total := 0

/-- Pass 1 of `draw_graph` (graph.rs lines 145-159): one walk of the
history accumulating running max, min, sum, total slot count and active
sample count. -/
def graphStatsLoop :
    List (Option ℚ) → ℚ → ℚ → ℚ → Nat → Nat → ℚ × ℚ × ℚ × Nat × Nat
  | [], mx, mn, sum, total, samples => (mx, mn, sum, total, samples)
  | none :: rest, mx, mn, sum, total, samples =>
      graphStatsLoop rest mx mn sum (total + 1) samples
  | some v :: rest, mx, mn, sum, total, samples =>
      graphStatsLoop rest (Max.max mx v) (Min.min mn v) (sum + v)
        (total + 1) (samples + 1)

/-- Pass 2 of `draw_graph` (graph.rs lines 180-194): one bar per history
slot; "no sample" slots advance the cursor without drawing. -/
def graphRasterLoop (ft : FontTable) (layer : Nat) (color : Color)
    (orientHoriz : Bool) (w : Int) (y_scale : ℚ) (y0 : Int) :
    List (Option ℚ) → Int → OverlayGeometry → OverlayGeometry
  | [], _, g => g
  | v :: rest, x0, g =>
      let x1 := x0 + w
      match v with
      | some val =>
          let y1 := i32OfRat ((y0 : ℚ) - val * y_scale)
          let r : Point × Point :=
            if orientHoriz then (⟨y0, x0⟩, ⟨y1, x1⟩) else (⟨x0, y0⟩, ⟨x1, y1⟩)
          graphRasterLoop ft layer color orientHoriz w y_scale y0 rest x1
            (g.push_rectangle ft layer r color color)
      | none =>
          graphRasterLoop ft layer color orientHoriz w y_scale y0 rest x1 g

/-- Single-series bar graph renderer (graph.rs, `draw_graph`).  A counter
without history yields the all-"no data" statistics and leaves the
overlay untouched.  The f32 divisions for the average, bar width and
y-scale are modelled as exact rational division (with division by zero
yielding 0 instead of an IEEE infinity; no claim depends on those
values). -/
def draw_graph (ft : FontTable) (layer : Nat) (rect : Point × Point)
    (counter : Counter) (reference_value : ℚ) (color : Color)
    (orientation : Orientation) (ov : Overlay) : GraphStats × Overlay :=
  match counter.historyQuery with
  | none => (noDataStats, ov)
  | some hist =>
      let rect :=
        if orientation = Orientation.Horizontal
        then ((⟨rect.1.y, rect.1.x⟩ : Point), (⟨rect.2.y, rect.2.x⟩ : Point))
        else rect
      let acc := graphStatsLoop hist (-f32Max) f32Max 0 0 0
      let mx := acc.1
      let mn := acc.2.1
      let sum := acc.2.2.1
      let total := acc.2.2.2.1
      let samples := acc.2.2.2.2
      if samples = 0 then (noDataStats, ov)
      else
        let avg := if 0 < samples then some (sum / (samples : ℚ)) else none
        let w := i32OfRat
          (Max.max (((rect.2.x - rect.1.x : Int) : ℚ) / (total : ℚ)) 1)
        let y_scale :=
          ((rect.2.y - rect.1.y : Int) : ℚ) / Max.max mx reference_value
        let g := graphRasterLoop ft layer color
          (orientation = Orientation.Horizontal) w y_scale rect.2.y
          hist rect.1.x ov.geometry
        ({ avg := avg, min := some mn, max := some mx,
           samples_active := samples, samples_total := total },
         { ov with geometry := g })

/-- One iteration of the lock-step inner for-loop of the first
`draw_graphs` pass (graph.rs lines 240-248): advance every history
iterator by one slot, accumulating the per-slot sum left to right;
`none` models the `break 'outer` taken when some iterator is exhausted. -/
def stepSum : List (List (Option ℚ)) → ℚ → Option (ℚ × List (List (Option ℚ)))
  | [], acc => some (acc, [])
  | [] :: _, _ => none
  | (v :: tl) :: rest, acc =>
      match stepSum rest (match v with | some x => acc + x | none => acc) with
      | none => none
      | some (s, rest') => some (s, tl :: rest')

/-- The first (unbounded) loop of `draw_graphs` (graph.rs lines 238-251),
indexed by fuel: computes the running maximum of per-slot sums and the
total slot count; `none` means the loop has not terminated within `fuel`
iterations -- the loop only ends through `break 'outer`. -/
def graphsMaxLoop : Nat → List (List (Option ℚ)) → ℚ → Nat → Option (ℚ × Nat)
  | 0, _, _, _ => none
  | fuel + 1, iters, mx, total =>
      match stepSum iters 0 with
      | none => some (mx, total)
      | some (s, iters') => graphsMaxLoop fuel iters' (Max.max mx s) (total + 1)

/-- One iteration of the lock-step inner for-loop of the second
`draw_graphs` pass (graph.rs lines 268-283): advance each iterator one
slot, drawing one stacked segment per active sample (cumulative offset
`y0` from the previous series).  The first component is `none` when some
iterator was exhausted (`break 'outer`); the geometry mutated before the
break is kept, as in the source. -/
def stepRaster (ft : FontTable) (layer : Nat) (orientHoriz : Bool)
    (y_scale : ℚ) (x0 x1 : Int) :
    List (List (Option ℚ) × Color) → Int → OverlayGeometry
    → Option (List (List (Option ℚ) × Color)) × OverlayGeometry
  | [], _, g => (some [], g)
  | ([], _) :: _, _, g => (none, g)
  | ((v :: tl), color) :: rest, y0, g =>
      match v with
      | some val =>
          let y1 := i32OfRat ((y0 : ℚ) - val * y_scale)
          let r : Point × Point :=
            if orientHoriz then (⟨y0, x0⟩, ⟨y1, x1⟩) else (⟨x0, y0⟩, ⟨x1, y1⟩)
          let step := stepRaster ft layer orientHoriz y_scale x0 x1 rest y1
            (g.push_rectangle ft layer r color color)
          (step.1.map (fun rest' => (tl, color) :: rest'), step.2)
      | none =>
          let step := stepRaster ft layer orientHoriz y_scale x0 x1 rest y0 g
          (step.1.map (fun rest' => (tl, color) :: rest'), step.2)

/-- The second (unbounded) loop of `draw_graphs` (graph.rs lines 265-285),
indexed by fuel; `yBottom` is the per-iteration stacking start
`rect.1.y`. -/
def graphsRasterLoop (ft : FontTable) (layer : Nat) (orientHoriz : Bool)
    (y_scale : ℚ) (w : Int) (yBottom : Int) :
    Nat → List (List (Option ℚ) × Color) → Int → OverlayGeometry
    → Option OverlayGeometry
  | 0, _, _, _ => none
  | fuel + 1, iters, x0, g =>
      match stepRaster ft layer orientHoriz y_scale x0 (x0 + w) iters yBottom g with
      | (none, g') => some g'
      | (some iters', g') =>
          graphsRasterLoop ft layer orientHoriz y_scale w yBottom
            fuel iters' (x0 + w) g'

/-- The per-counter iterator list built (twice) by `draw_graphs` (graph.rs
lines 231-236 and 253-258): one (history, descriptor color) pair per
counter that has history. -/
def graphsIters (counters : List Counter) : List (List (Option ℚ) × Color) :=
  counters.filterMap
    (fun c => c.historyQuery.map (fun h => (h, c.descriptor.color)))

/-- Multi-series stacked graph renderer (graph.rs, `draw_graphs`), indexed
by fuel for its two unbounded loops; `none` means one of the loops failed
to terminate within `fuel` iterations.  Float divisions are modelled as
exact rational division, as in `draw_graph`. -/
def draw_graphs (fuel : Nat) (ft : FontTable) (layer : Nat)
    (rect : Point × Point) (counters : List Counter) (reference_value : ℚ)
    (orientation : Orientation) (ov : Overlay) : Option Overlay :=
  let rect :=
    if orientation = Orientation.Horizontal
    then ((⟨rect.1.y, rect.1.x⟩ : Point), (⟨rect.2.y, rect.2.x⟩ : Point))
    else rect
  let iters := graphsIters counters
  match graphsMaxLoop fuel (iters.map Prod.fst) (-f32Max) 0 with
  | none => none
  | some (mx, total) =>
      let w := i32OfRat
        (Max.max (((rect.2.x - rect.1.x : Int) : ℚ) / (total : ℚ)) 1)
      let y_scale :=
        ((rect.2.y - rect.1.y : Int) : ℚ) / Max.max mx reference_value
      match graphsRasterLoop ft layer (orientation = Orientation.Horizontal)
          y_scale w rect.2.y fuel iters rect.1.x ov.geometry with
      | none => none
      | some g => some { ov with geometry := g }

/-- Termination of `draw_graphs` in the fuel-indexed model: some fuel
bound suffices for both loops to finish. -/
def drawGraphsTerminates (ft : FontTable) (layer : Nat)
    (rect : Point × Point) (counters : List Counter) (reference_value : ℚ)
    (orientation : Orientation) (ov : Overlay) : Prop :=
  ∃ fuel ov', draw_graphs fuel ft layer rect counters reference_value
    orientation ov = some ov'

/-- The length of the shortest history among the walked iterators; the
number of complete lock-step iterations both `draw_graphs` loops perform
before one iterator is exhausted. -/
def minLen : List (List (Option ℚ)) → Nat
  | [] => 0
  | [l] => l.length
  | l :: rest => Min.min l.length (minLen rest)

/-- Table column kinds (table.rs, `enum ColumnKind`). -/
inductive ColumnKind where
  | Empty
  | Color
  | Name
  | Avg
  | Min
  | Max
  | Value
  | HistoryGraph
  | Changed
deriving DecidableEq

/-- Table column configuration (table.rs, `struct Column`). -/
structure Column where
  kind : ColumnKind
  unit : Bool
  label : Option String
deriving DecidableEq

/-- Text cell renderer (table.rs, `draw_cell_text`): with a unit, the text
is formatted as `name (unit)` through the shared string buffer (appending
to it, as `write!` does); without one, the text is drawn directly. -/
def draw_cell_text (ft : FontTable) (x y : Int) (text unitStr : String)
    (color : Color) (ov : Overlay) : (Point × Point) × Overlay :=
  if unitStr ≠ "" then
    let buf := ov.string_buffer ++ text ++ " (" ++ unitStr ++ ")"
    let ov := { ov with string_buffer := buf }
    let res := ov.geometry.push_text ft FRONT_LAYER buf ⟨x, y⟩ color
    (res.1, { ov with geometry := res.2 })
  else
    let res := ov.geometry.push_text ft FRONT_LAYER text ⟨x, y⟩ color
    (res.1, { ov with geometry := res.2 })

/-- Numeric cell renderer (table.rs, `draw_cell_value`).  A non-finite
value (the "no data" sentinel, `none` here) yields a degenerate rectangle
at the cell origin and touches nothing.  Otherwise the value is formatted
into the cleared string buffer -- the Rust `write!` number formatting is
external to these sources and passed in as `fmt` -- and drawn. -/
def draw_cell_value (ft : FontTable) (fmt : Format → ℚ → String → String)
    (x y : Int) (val : Option ℚ) (counter : Counter) (unit : Bool)
    (color : Color) (ov : Overlay) : (Point × Point) × Overlay :=
  match val with
  | none => ((⟨x, y⟩, ⟨x, y⟩), ov)
  | some v =>
      let unit_str := if unit then counter.descriptor.unit else ""
      let buf := fmt counter.descriptor.format v unit_str
      let ov := { ov with string_buffer := buf }
      let res := ov.geometry.push_text ft FRONT_LAYER buf ⟨x, y⟩ color
      (res.1, { ov with geometry := res.2 })

/-- Cell dispatch (table.rs, `draw_cell`): Value/Avg/Min/Max cells feed
the corresponding counter aggregate to `draw_cell_value`; a HistoryGraph
cell draws an inline graph when history is present; a Color cell draws a
10x10 swatch; Empty and the unimplemented Changed kind draw nothing. -/
def draw_cell (ft : FontTable) (fmt : Format → ℚ → String → String)
    (x y : Int) (column : Column) (counter : Counter) (color : Color)
    (ov : Overlay) : (Point × Point) × Overlay :=
  match column.kind with
  | ColumnKind.Empty => ((⟨x, y⟩, ⟨x, y⟩), ov)
  | ColumnKind.Name =>
      draw_cell_text ft x y counter.descriptor.name
        (if column.unit then counter.descriptor.unit else "") color ov
  | ColumnKind.Value =>
      draw_cell_value ft fmt x y counter.last_value counter column.unit color ov
  | ColumnKind.Avg =>
      draw_cell_value ft fmt x y counter.displayed_avg counter column.unit color ov
  | ColumnKind.Min =>
      draw_cell_value ft fmt x y counter.displayed_min counter column.unit color ov
  | ColumnKind.Max =>
      draw_cell_value ft fmt x y counter.displayed_max counter column.unit color ov
  | ColumnKind.HistoryGraph =>
      if counter.history.isEmpty then ((⟨x, y⟩, ⟨x, y⟩), ov)
      else
        let w : Int := counter.history.length
        let r : Point × Point := (⟨x, y - (ft.font_height : Int)⟩, ⟨x + w, y⟩)
        let ref : ℚ := if counter.descriptor.unit = "ms" then 8 else 0
        let res := draw_graph ft FRONT_LAYER r counter ref color
          Orientation.Vertical ov
        (r, res.2)
  | ColumnKind.Color =>
      let r : Point × Point := (⟨x, y - 11⟩, ⟨x + 10, y - 1⟩)
      let c := counter.descriptor.color
      ( r,
        { ov with geometry := ov.geometry.push_rectangle ft FRONT_LAYER r c c })
  | ColumnKind.Changed => ((⟨x, y⟩, ⟨x, y⟩), ov)

/-- A small concrete glyph table used by witnesses: first character 32
(space), a single glyph. -/
def exampleFontTable : FontTable where
  first_char := 32
  font_height := 18
  opaque_pixel := (0, 127)
  glyph_info := [⟨(0, 0), (5, 18), (0, 0), 6⟩]

/-- A simple concrete widget used by layout witnesses: occupies a 5x5
rectangle at its assigned origin and does not touch the overlay. -/
def testItem : Point → Overlay → (Point × Point) × Overlay :=
  fun p ov => ((p, ⟨p.x + 5, p.y + 5⟩), ov)

/-- An overlay with one open group containing one drawn item: the state in
which the separator counterexample is evaluated. -/
def sepOverlay : Overlay := Overlay.new.draw_item testItem

section CounterLemmas

theorem update_counter_avg_window (cs : Counters) :
    cs.update.counter_avg_window = cs.counter_avg_window := rfl

theorem iterUpdate_frame_idx (h k : Nat) :
    (iterUpdate k (Counters.new h)).frame_idx = k % 30
    ∧ (iterUpdate k (Counters.new h)).counter_avg_window = 30 := by
  induction k with
  | zero => exact ⟨rfl, rfl⟩
  | succ n ih =>
      obtain ⟨h1, h2⟩ := ih
      refine ⟨?_, ?_⟩
      · show ((iterUpdate n (Counters.new h)).update).frame_idx = _
        simp only [Counters.update, h1, h2]
        have hm : (n % 30 + 1) % 2 ^ 32 = n % 30 + 1 :=
          Nat.mod_eq_of_lt (by omega)
        simp only [hm, beq_iff_eq]
        by_cases hb : n % 30 + 1 = 30
        · rw [if_pos hb]; omega
        · rw [if_neg hb]; omega
      · show ((iterUpdate n (Counters.new h)).update).counter_avg_window = 30
        rw [update_counter_avg_window, h2]

theorem counter_update_false_displayed (c : Counter) :
    (c.update false).displayed_avg = c.displayed_avg
    ∧ (c.update false).displayed_min = c.displayed_min
    ∧ (c.update false).displayed_max = c.displayed_max := by
  unfold Counter.update
  cases hc : c.current_value <;>
    simp only [hc, Bool.false_eq_true, if_false] <;>
      by_cases hh : c.history.isEmpty <;> simp [hh]

theorem counter_update_true_via_false (c : Counter) :
    c.update true = commitAvg (c.update false) := by
  unfold Counter.update commitAvg
  cases hc : c.current_value <;>
    simp only [hc, Bool.false_eq_true, if_false] <;>
      by_cases hh : c.history.isEmpty <;> simp [hh]

theorem counter_update_true_eq (c : Counter) :
    (c.update true).sum = 0 ∧ (c.update true).samples = 0
    ∧ (c.update true).displayed_avg =
        (if 0 < (c.update false).samples
         then some ((c.update false).sum / (c.update false).samples) else none)
    ∧ (c.update true).displayed_min =
        (if 0 < (c.update false).samples then some (c.update false).min else none)
    ∧ (c.update true).displayed_max =
        (if 0 < (c.update false).samples then some (c.update false).max else none) := by
  rw [counter_update_true_via_false]
  by_cases hs : 0 < (c.update false).samples <;> simp [commitAvg, hs]

end CounterLemmas

/-- C1: each `Counters::update` call increments the frame counter; a window
boundary happens exactly when the incremented counter reaches `avg_window`
(every 30 frames from a fresh registry), after which the frame counter is
reset to 0; every counter is updated with that frame's boundary flag; a
boundary update publishes `displayed_avg = sum / samples` and the
accumulated extremes and zeroes the window's `sum` and `samples`; a
non-boundary update leaves the displayed aggregates unchanged. -/
theorem counters_window_boundary_spec
    (cs : Counters) (h1 : cs.frame_idx + 1 < 2 ^ 32) :
    (cs.update.counters
      = cs.counters.map
          (fun c => c.update (cs.frame_idx + 1 == cs.counter_avg_window)))
    ∧ (cs.update.frame_idx
      = if cs.frame_idx + 1 = cs.counter_avg_window then 0
        else cs.frame_idx + 1)
    ∧ (∀ h k, (iterUpdate k (Counters.new h)).frame_idx = k % 30)
    ∧ (∀ c : Counter,
        (c.update false).displayed_avg = c.displayed_avg
        ∧ (c.update false).displayed_min = c.displayed_min
        ∧ (c.update false).displayed_max = c.displayed_max)
    ∧ (∀ c : Counter,
        (c.update true).sum = 0 ∧ (c.update true).samples = 0
        ∧ (c.update true).displayed_avg =
            (if 0 < (c.update false).samples
             then some ((c.update false).sum / (c.update false).samples)
             else none)
        ∧ (c.update true).displayed_min =
            (if 0 < (c.update false).samples
             then some (c.update false).min else none)
        ∧ (c.update true).displayed_max =
            (if 0 < (c.update false).samples
             then some (c.update false).max else none)) := by
  have hmod : (cs.frame_idx + 1) % 2 ^ 32 = cs.frame_idx + 1 :=
    Nat.mod_eq_of_lt h1
  refine ⟨?_, ?_, ?_, counter_update_false_displayed, counter_update_true_eq⟩
  · simp only [Counters.update, hmod]
  · simp only [Counters.update, hmod, beq_iff_eq]
  · exact fun h k => (iterUpdate_frame_idx h k).1

/-- C1 witness: a fresh registry with one registered counter, ticked once. -/
theorem counters_window_boundary_spec_witness :
    (Counters.new 0).update.frame_idx
      = if (Counters.new 0).frame_idx + 1 = (Counters.new 0).counter_avg_window
        then 0 else (Counters.new 0).frame_idx + 1 :=
  (counters_window_boundary_spec (Counters.new 0) (by norm_num [Counters.new])).2.1

/-- C2: once history is enabled at capacity n > 0, every update drops the
oldest history slot and appends the frame's pending value (the "no sample"
marker when the frame had no finite sample), keeping the length exactly n
on every frame, boundary or not; the spec's concrete six-slot example
reads back as expected. -/
theorem counter_history_rotation :
    (∀ (c : Counter) (b : Bool), 0 < c.history.length →
      (c.update b).history = c.history.tail ++ [c.current_value]
      ∧ (c.update b).history.length = c.history.length)
    ∧ historyExampleCounter.historyQuery
        = some [none, some 1, some 2, none, some 4, some 5] := by
  constructor
  · intro c b hlen
    have hne : ¬ c.history.isEmpty := by
      cases h : c.history with
      | nil => rw [h] at hlen; simp at hlen
      | cons a l => simp [h]
    have hhist : (c.update b).history = c.history.tail ++ [c.current_value] := by
      unfold Counter.update
      cases hc : c.current_value <;>
        cases b <;>
          simp [hc, hne] <;>
            split <;> rfl
    refine ⟨hhist, ?_⟩
    rw [hhist]
    simp
    omega
  · rfl

/-- C2 witness: a two-slot history rotates on a non-boundary update of a
fresh counter. -/
theorem counter_history_rotation_witness :
    (((Counter.new exampleDescriptor).enable_history 2).update false).history
      = ((Counter.new exampleDescriptor).enable_history 2).history.tail
        ++ [((Counter.new exampleDescriptor).enable_history 2).current_value] :=
  (counter_history_rotation.1 ((Counter.new exampleDescriptor).enable_history 2)
    false (by simp [Counter.new, Counter.enable_history])).1

/-- C3: only the last `set` before `update` takes effect: after `set(5)`
then `set(7)`, the pending value is 7, and a (non-boundary) update adds
exactly one sample of value 7 to the window (samples grows by 1, sum
by 7). -/
theorem counter_set_last_write_wins (c : Counter) :
    ((c.set (some 5)).set (some 7)).current_value = some 7
    ∧ (((c.set (some 5)).set (some 7)).update false).samples = c.samples + 1
    ∧ (((c.set (some 5)).set (some 7)).update false).sum = c.sum + 7 := by
  refine ⟨rfl, ?_, ?_⟩ <;>
    · unfold Counter.update Counter.set
      by_cases hh : c.history.isEmpty <;> simp [hh]

section RegisterGroupLemmas

theorem checkIds_iff (l : List CounterDescriptor) : ∀ idx : Nat,
    checkIds idx l = true
      ↔ ∀ i (h : i < l.length), (l.get ⟨i, h⟩).id = idx + i := by
  induction l with
  | nil => intro idx; simp [checkIds]
  | cons d rest ih =>
      intro idx
      simp only [checkIds, Bool.and_eq_true, beq_iff_eq, ih (idx + 1)]
      constructor
      · rintro ⟨h0, hrest⟩ i hi
        match i with
        | 0 => simpa using h0
        | Nat.succ j =>
            have hj : j < rest.length := Nat.lt_of_succ_lt_succ hi
            have hg : ((d :: rest).get ⟨j + 1, hi⟩) = rest.get ⟨j, hj⟩ := rfl
            rw [hg, hrest j hj]
            omega
      · intro hall
        constructor
        · have h0 := hall 0 (by simp)
          simpa using h0
        · intro j hj
          have hij : j + 1 < (d :: rest).length := by
            simp only [List.length_cons]
            omega
          have hg : ((d :: rest).get ⟨j + 1, hij⟩) = rest.get ⟨j, hj⟩ := rfl
          have hv := hall (j + 1) hij
          rw [hg] at hv
          rw [hv]
          omega

end RegisterGroupLemmas

/-- C4: provided the registry stays under the u16 capacity bound,
`register_group` succeeds exactly when every descriptor's declared id
equals its 0-based position in the batch (otherwise it is a fatal error),
and on success appends exactly N counters to the dense array and returns a
group covering exactly the newly appended index range. -/
theorem register_group_spec (cs : Counters) (name : String)
    (descriptors : List CounterDescriptor)
    (hcap : cs.counters.length + descriptors.length < 65535) :
    ((cs.register_group name descriptors).isSome
      ↔ ∀ i (h : i < descriptors.length), (descriptors.get ⟨i, h⟩).id = i)
    ∧ (∀ cs' g, cs.register_group name descriptors = some (cs', g) →
        cs'.counters = cs.counters ++ descriptors.map Counter.new
        ∧ cs'.counters.length = cs.counters.length + descriptors.length
        ∧ g.start = cs.counters.length
        ∧ g.stop = cs.counters.length + descriptors.length) := by
  have hids := checkIds_iff descriptors 0
  simp only [Nat.zero_add] at hids
  constructor
  · rw [← hids]
    unfold Counters.register_group
    rw [if_pos hcap]
    by_cases hchk : checkIds 0 descriptors = true <;> simp [hchk]
  · intro cs' g hsome
    unfold Counters.register_group at hsome
    rw [if_pos hcap] at hsome
    by_cases hchk : checkIds 0 descriptors = true
    · rw [if_pos hchk] at hsome
      injection hsome with h
      injection h with h1 h2
      subst h1; subst h2
      refine ⟨rfl, by simp, rfl, rfl⟩
    · rw [if_neg hchk] at hsome
      exact absurd hsome (by simp)

/-- C4 witness: registering one well-numbered descriptor into a fresh
registry succeeds. -/
theorem register_group_spec_witness :
    ((Counters.new 0).register_group "g" [exampleDescriptor]).isSome
      ↔ ∀ i (h : i < [exampleDescriptor].length),
          ([exampleDescriptor].get ⟨i, h⟩).id = i :=
  (register_group_spec (Counters.new 0) "g" [exampleDescriptor]
    (by simp [Counters.new])).1

section WindowLemmas

theorem counter_set_fields (c : Counter) (v : Option ℚ) :
    (c.set v).current_value = v
    ∧ (c.set v).sum = c.sum ∧ (c.set v).samples = c.samples
    ∧ (c.set v).min = c.min ∧ (c.set v).max = c.max
    ∧ (c.set v).history = c.history := by
  cases v <;> simp [Counter.set]

theorem counter_update_false_some (c : Counter) (x : ℚ)
    (h : c.current_value = some x) :
    (c.update false).samples = c.samples + 1
    ∧ (c.update false).sum = c.sum + x
    ∧ (c.update false).min = Min.min c.min x
    ∧ (c.update false).max = Max.max c.max x := by
  unfold Counter.update
  by_cases hh : c.history.isEmpty <;> simp [h, hh]

theorem counter_update_false_none (c : Counter)
    (h : c.current_value = none) :
    (c.update false).samples = c.samples
    ∧ (c.update false).sum = c.sum
    ∧ (c.update false).min = c.min
    ∧ (c.update false).max = c.max := by
  unfold Counter.update
  by_cases hh : c.history.isEmpty <;> simp [h, hh]

theorem runWindow_min_max : ∀ (vals : List (Option ℚ)), vals ≠ [] →
    ∀ c : Counter, c.min ≤ 0 → 0 ≤ c.max → 0 ≤ c.samples →
    (0 < c.samples ∨ ∃ v ∈ vals, v.isSome) →
    (∃ m, (runWindow c vals).displayed_min = some m ∧ m ≤ 0)
    ∧ (∃ M, (runWindow c vals).displayed_max = some M ∧ 0 ≤ M) := by
  intro vals
  induction vals with
  | nil => intro h; exact absurd rfl h
  | cons v rest ih =>
      intro _ c hmin hmax hs hsome
      cases rest with
      | nil =>
          have hrw : runWindow c [v] = (c.set v).update true := rfl
          have hset := counter_set_fields c v
          have hd := counter_update_true_eq (c.set v)
          have hpos : 0 < ((c.set v).update false).samples
              ∧ ((c.set v).update false).min ≤ 0
              ∧ 0 ≤ ((c.set v).update false).max := by
            cases v with
            | some x =>
                have hf := counter_update_false_some (c.set (some x)) x
                  (counter_set_fields c (some x)).1
                refine ⟨?_, ?_, ?_⟩
                · rw [hf.1, hset.2.2.1]; linarith
                · rw [hf.2.2.1, hset.2.2.2.1]
                  exact le_trans (min_le_left _ _) hmin
                · rw [hf.2.2.2, hset.2.2.2.2.1]
                  exact le_trans hmax (le_max_left _ _)
            | none =>
                have hf := counter_update_false_none (c.set none)
                  (counter_set_fields c none).1
                have hs0 : 0 < c.samples := by
                  rcases hsome with hs0 | ⟨w, hw, hwsome⟩
                  · exact hs0
                  · simp at hw
                    rw [hw] at hwsome
                    simp at hwsome
                refine ⟨?_, ?_, ?_⟩
                · rw [hf.1, hset.2.2.1]; exact hs0
                · rw [hf.2.2.1, hset.2.2.2.1]; exact hmin
                · rw [hf.2.2.2, hset.2.2.2.2.1]; exact hmax
          rw [hrw]
          constructor
          · refine ⟨((c.set v).update false).min, ?_, hpos.2.1⟩
            rw [hd.2.2.2.1, if_pos hpos.1]
          · refine ⟨((c.set v).update false).max, ?_, hpos.2.2⟩
            rw [hd.2.2.2.2, if_pos hpos.1]
      | cons w tl =>
          have hrw : runWindow c (v :: w :: tl)
              = runWindow ((c.set v).update false) (w :: tl) := rfl
          rw [hrw]
          have hset := counter_set_fields c v
          apply ih (by simp)
          · cases v with
            | some x =>
                have hf := counter_update_false_some (c.set (some x)) x
                  (counter_set_fields c (some x)).1
                rw [hf.2.2.1, hset.2.2.2.1]
                exact le_trans (min_le_left _ _) hmin
            | none =>
                have hf := counter_update_false_none (c.set none)
                  (counter_set_fields c none).1
                rw [hf.2.2.1, hset.2.2.2.1]; exact hmin
          · cases v with
            | some x =>
                have hf := counter_update_false_some (c.set (some x)) x
                  (counter_set_fields c (some x)).1
                rw [hf.2.2.2, hset.2.2.2.2.1]
                exact le_trans hmax (le_max_left _ _)
            | none =>
                have hf := counter_update_false_none (c.set none)
                  (counter_set_fields c none).1
                rw [hf.2.2.2, hset.2.2.2.2.1]; exact hmax
          · cases v with
            | some x =>
                have hf := counter_update_false_some (c.set (some x)) x
                  (counter_set_fields c (some x)).1
                rw [hf.1, hset.2.2.1]; linarith
            | none =>
                have hf := counter_update_false_none (c.set none)
                  (counter_set_fields c none).1
                rw [hf.1, hset.2.2.1]; exact hs
          · cases v with
            | some x =>
                have hf := counter_update_false_some (c.set (some x)) x
                  (counter_set_fields c (some x)).1
                left
                rw [hf.1, hset.2.2.1]
                linarith
            | none =>
                have hf := counter_update_false_none (c.set none)
                  (counter_set_fields c none).1
                rcases hsome with hs0 | ⟨u, hu, husome⟩
                · left; rw [hf.1, hset.2.2.1]; exact hs0
                · simp at hu
                  rcases hu with hu | hu
                  · rw [hu] at husome; simp at husome
                  · right; exact ⟨u, by simpa using hu, husome⟩

theorem runWindow_min_eq_zero : ∀ (vals : List (Option ℚ)), vals ≠ [] →
    ∀ c : Counter, c.min = 0 → 0 ≤ c.samples →
    (0 < c.samples ∨ ∃ v ∈ vals, v.isSome) →
    (∀ v ∈ vals, ∀ x, v = some x → 0 ≤ x) →
    (runWindow c vals).displayed_min = some 0 := by
  intro vals
  induction vals with
  | nil => intro h; exact absurd rfl h
  | cons v rest ih =>
      intro _ c hmin hs hsome hnn
      have hset := counter_set_fields c v
      have hmin' : ((c.set v).update false).min = 0 := by
        cases v with
        | some x =>
            have hf := counter_update_false_some (c.set (some x)) x
              (counter_set_fields c (some x)).1
            rw [hf.2.2.1, hset.2.2.2.1, hmin]
            exact min_eq_left (hnn (some x) (by simp) x rfl)
        | none =>
            have hf := counter_update_false_none (c.set none)
              (counter_set_fields c none).1
            rw [hf.2.2.1, hset.2.2.2.1]; exact hmin
      have hsamp : 0 < ((c.set v).update false).samples
          ∨ (((c.set v).update false).samples = c.samples) := by
        cases v with
        | some x =>
            have hf := counter_update_false_some (c.set (some x)) x
              (counter_set_fields c (some x)).1
            left; rw [hf.1, hset.2.2.1]; linarith
        | none =>
            have hf := counter_update_false_none (c.set none)
              (counter_set_fields c none).1
            right; rw [hf.1, hset.2.2.1]
      cases rest with
      | nil =>
          have hrw : runWindow c [v] = (c.set v).update true := rfl
          have hd := counter_update_true_eq (c.set v)
          have hpos : 0 < ((c.set v).update false).samples := by
            rcases hsamp with hp | he
            · exact hp
            · rw [he]
              rcases hsome with hs0 | ⟨w, hw, hwsome⟩
              · exact hs0
              · simp at hw
                cases v with
                | some x =>
                    have hf := counter_update_false_some (c.set (some x)) x
                      (counter_set_fields c (some x)).1
                    rw [hf.1, hset.2.2.1] at he
                    exact absurd he (by intro h0; linarith)
                | none => rw [hw] at hwsome; simp at hwsome
          rw [hrw, hd.2.2.2.1, if_pos hpos, hmin']
      | cons w tl =>
          have hrw : runWindow c (v :: w :: tl)
              = runWindow ((c.set v).update false) (w :: tl) := rfl
          rw [hrw]
          apply ih (by simp) _ hmin'
          · rcases hsamp with hp | he
            · linarith
            · rw [he]; exact hs
          · rcases hsamp with hp | he
            · left; exact hp
            · rcases hsome with hs0 | ⟨u, hu, husome⟩
              · left; rw [he]; exact hs0
              · simp at hu
                rcases hu with hu | hu
                · cases v with
                  | some x =>
                      left
                      have hf := counter_update_false_some (c.set (some x)) x
                        (counter_set_fields c (some x)).1
                      rw [hf.1, (counter_set_fields c (some x)).2.2.1]
                      linarith
                  | none => rw [hu] at husome; simp at husome
                · right; exact ⟨u, by simpa using hu, husome⟩
          · intro u hu x hux
            exact hnn u (by simp [hu]) x hux

end WindowLemmas

/-- C10: a fresh counter starts its window accumulators at min = 0 and
max = 0 (not at the +-infinity-like extremes installed only after a
boundary reset), so the first window's boundary update always publishes
displayed_min <= 0 and displayed_max >= 0 whenever at least one finite
sample was recorded; in particular a first window whose samples are all
5 publishes displayed_min = 0, not 5. -/
theorem counter_first_window_bias (d : CounterDescriptor)
    (vals : List (Option ℚ)) (hne : vals ≠ [])
    (hsome : ∃ v ∈ vals, v.isSome) :
    (Counter.new d).min = 0 ∧ (Counter.new d).max = 0
    ∧ (∃ m, (runWindow (Counter.new d) vals).displayed_min = some m ∧ m ≤ 0)
    ∧ (∃ M, (runWindow (Counter.new d) vals).displayed_max = some M ∧ 0 ≤ M)
    ∧ (runWindow (Counter.new exampleDescriptor)
          (List.replicate 30 (some 5))).displayed_min = some 0 := by
  have hmm := runWindow_min_max vals hne (Counter.new d)
    (by simp [Counter.new]) (by simp [Counter.new]) (by simp [Counter.new])
    (Or.inr hsome)
  refine ⟨rfl, rfl, hmm.1, hmm.2, ?_⟩
  apply runWindow_min_eq_zero _ (by simp) _ rfl (by simp [Counter.new])
  · right
    exact ⟨some 5, by simp [List.mem_replicate], rfl⟩
  · intro v hv x hvx
    rw [List.eq_of_mem_replicate hv] at hvx
    injection hvx with h
    rw [← h]
    norm_num

/-- C10 witness: a single-frame window with one sample of value 5. -/
theorem counter_first_window_bias_witness :
    ∃ m, (runWindow (Counter.new exampleDescriptor)
        [some 5]).displayed_min = some m ∧ m ≤ 0 :=
  (counter_first_window_bias exampleDescriptor [some 5] (by simp)
    ⟨some 5, by simp, rfl⟩).2.2.1

/-- C6: a character other than a newline whose code falls outside the
glyph table's range -- below the first-character code, or at or past
first-character code plus table length -- is silently skipped by the
`push_text` character loop: no vertices or indices are emitted for it, the
pen does not move, and processing continues with the remaining characters
exactly as if the character were absent.  (On the 64-bit release target the
`usize` index subtraction wraps, which always lands at or beyond the table
length for a `u32` first-character code.) -/
theorem push_text_skips_unknown_char (ft : FontTable)
    (hfc : ft.first_char < 2 ^ 32) (hlen : ft.glyph_info.length ≤ 2 ^ 32)
    (layer : Nat) (color : Nat) (ch : Char) (hnl : ch ≠ '\n')
    (hout : ch.toNat < ft.first_char
      ∨ ft.first_char + ft.glyph_info.length ≤ ch.toNat)
    (rest : List Char) (pos mn mx : Point) (g : OverlayGeometry) :
    push_textLoop ft layer color (ch :: rest) pos mn mx g
      = push_textLoop ft layer color rest pos mn mx g := by
  have hch : ch.toNat < 2 ^ 32 := ch.val.val.isLt
  have hidx : ft.glyph_info.length ≤ usizeSub ch.toNat ft.first_char := by
    unfold usizeSub
    omega
  simp only [push_textLoop]
  rw [if_neg hnl, if_pos hidx]

/-- C6 witness: with a one-glyph table starting at character 32, the
letter b (code 98) lies past the table and is skipped. -/
theorem push_text_skips_unknown_char_witness :
    push_textLoop exampleFontTable 1 0 ['b'] ⟨10, 10⟩ ⟨10, 10⟩ ⟨10, 10⟩
        (OverlayGeometry.new 2)
      = push_textLoop exampleFontTable 1 0 [] ⟨10, 10⟩ ⟨10, 10⟩ ⟨10, 10⟩
        (OverlayGeometry.new 2) :=
  push_text_skips_unknown_char exampleFontTable (by norm_num [exampleFontTable])
    (by norm_num [exampleFontTable]) 1 0 'b' (by decide)
    (Or.inr (by decide)) [] ⟨10, 10⟩ ⟨10, 10⟩ ⟨10, 10⟩ (OverlayGeometry.new 2)

/-- C7 counterexample: in an overlay with an open group (default
horizontal item flow, margin 10), the cursor assigned to the next item by
`draw_item` is identical with and without a preceding `push_separator`
call -- not 3 x margin further along the item-flow axis as the claim
states -- because `draw_item` recomputes its placement from the group
rectangle, which the separator does not touch. -/
theorem push_separator_counterexample :
    ((sepOverlay.push_separator).draw_item testItem).cursor
        = (sepOverlay.draw_item testItem).cursor
    ∧ (sepOverlay.draw_item testItem).cursor.x + sepOverlay.style.margin * 3
        ≠ ((sepOverlay.push_separator).draw_item testItem).cursor.x := by
  constructor
  · decide
  · decide

/-- C7 (amended): with an open group, `push_separator` advances the cursor
by 3 x margin along the item-flow axis and leaves the group open with its
rectangle untouched; however the next `draw_item` in the group recomputes
its placement from the group rectangle, so the drawn result is exactly the
same as without the separator. -/
theorem push_separator_cursor_only (ov : Overlay)
    (item : Point → Overlay → (Point × Point) × Overlay)
    (h : ov.in_group = true) :
    (ov.push_separator).in_group = true
    ∧ (ov.push_separator).group_area = ov.group_area
    ∧ (ov.push_separator).cursor =
        (match ov.item_flow with
         | Orientation.Vertical =>
             (⟨ov.cursor.x, ov.cursor.y + ov.style.margin * 3⟩ : Point)
         | Orientation.Horizontal =>
             (⟨ov.cursor.x + ov.style.margin * 3, ov.cursor.y⟩ : Point))
    ∧ (ov.push_separator).draw_item item = ov.draw_item item := by
  cases hf : ov.item_flow <;>
    simp [Overlay.push_separator, Overlay.draw_item, h, hf]

/-- C7 amended-claim witness: the concrete one-item overlay. -/
theorem push_separator_cursor_only_witness :
    (sepOverlay.push_separator).draw_item testItem
      = sepOverlay.draw_item testItem :=
  (push_separator_cursor_only sepOverlay testItem (by decide)).2.2.2

/-- C8: a counter without history ("no history" from the history query)
makes `draw_graph` return the all-"no data" statistics (avg, min and max
are the sentinel, both sample counts 0) and draw nothing: the overlay --
in particular every vertex and every layer's index list -- is returned
unchanged. -/
theorem draw_graph_no_history (ft : FontTable) (layer : Nat)
    (rect : Point × Point) (c : Counter) (reference_value : ℚ)
    (color : Color) (orientation : Orientation) (ov : Overlay)
    (h : c.historyQuery = none) :
    draw_graph ft layer rect c reference_value color orientation ov
      = (noDataStats, ov)
    ∧ (draw_graph ft layer rect c reference_value color orientation ov).2.geometry.vertices
        = ov.geometry.vertices
    ∧ ∀ i, (draw_graph ft layer rect c reference_value color orientation ov).2.geometry.layers.getD i []
        = ov.geometry.layers.getD i [] := by
  have hmain :
      draw_graph ft layer rect c reference_value color orientation ov
        = (noDataStats, ov) := by
    unfold draw_graph
    rw [h]
  exact ⟨hmain, by rw [hmain], fun i => by rw [hmain]⟩

/-- C8 witness: a freshly constructed counter has no history. -/
theorem draw_graph_no_history_witness :
    draw_graph exampleFontTable 1 (⟨0, 0⟩, ⟨100, 100⟩)
        (Counter.new exampleDescriptor) 0 (255, 255, 255, 255)
        Orientation.Vertical Overlay.new
      = (noDataStats, Overlay.new) :=
  (draw_graph_no_history exampleFontTable 1 (⟨0, 0⟩, ⟨100, 100⟩)
    (Counter.new exampleDescriptor) 0 (255, 255, 255, 255)
    Orientation.Vertical Overlay.new rfl).1

/-- C9: a Value, Avg, Min or Max table cell whose backing aggregate holds
the "no data" sentinel renders as blank: `draw_cell` returns the
degenerate rectangle at the cell origin and the overlay completely
unchanged -- no text geometry, hence no literal NaN, zero or placeholder
text. -/
theorem table_no_data_cell_blank (ft : FontTable)
    (fmt : Format → ℚ → String → String) (x y : Int) (u : Bool)
    (lab : Option String) (c : Counter) (color : Color) (ov : Overlay) :
    (c.last_value = none →
      draw_cell ft fmt x y ⟨ColumnKind.Value, u, lab⟩ c color ov
        = ((⟨x, y⟩, ⟨x, y⟩), ov))
    ∧ (c.displayed_avg = none →
      draw_cell ft fmt x y ⟨ColumnKind.Avg, u, lab⟩ c color ov
        = ((⟨x, y⟩, ⟨x, y⟩), ov))
    ∧ (c.displayed_min = none →
      draw_cell ft fmt x y ⟨ColumnKind.Min, u, lab⟩ c color ov
        = ((⟨x, y⟩, ⟨x, y⟩), ov))
    ∧ (c.displayed_max = none →
      draw_cell ft fmt x y ⟨ColumnKind.Max, u, lab⟩ c color ov
        = ((⟨x, y⟩, ⟨x, y⟩), ov)) := by
  refine ⟨?_, ?_, ?_, ?_⟩ <;>
    · intro h
      simp [draw_cell, draw_cell_value, h]

/-- C9 witness: a fresh counter's displayed average is the "no data"
sentinel and its Avg cell renders blank. -/
theorem table_no_data_cell_blank_witness :
    draw_cell exampleFontTable (fun _ _ u => u) 0 0
        ⟨ColumnKind.Avg, false, none⟩ (Counter.new exampleDescriptor)
        (255, 255, 255, 255) Overlay.new
      = ((⟨0, 0⟩, ⟨0, 0⟩), Overlay.new) :=
  (table_no_data_cell_blank exampleFontTable (fun _ _ u => u) 0 0 false none
    (Counter.new exampleDescriptor) (255, 255, 255, 255) Overlay.new).2.1 rfl

section GraphsLoopLemmas

theorem minLen_le_of_mem : ∀ (iters : List (List (Option ℚ))) l,
    l ∈ iters → minLen iters ≤ l.length := by
  intro iters
  induction iters with
  | nil => intro l hl; simp at hl
  | cons a rest ih =>
      intro l hl
      cases rest with
      | nil =>
          simp at hl
          simp [minLen, hl]
      | cons b tl =>
          simp only [minLen]
          rcases List.mem_cons.mp hl with h | h
          · exact le_trans (Nat.min_le_left _ _) (by rw [h])
          · exact le_trans (Nat.min_le_right _ _) (ih l h)

theorem minLen_pos : ∀ (iters : List (List (Option ℚ))), iters ≠ [] →
    (∀ l ∈ iters, l ≠ []) → 0 < minLen iters := by
  intro iters
  induction iters with
  | nil => intro h; exact absurd rfl h
  | cons a rest ih =>
      intro _ hne
      have ha : a ≠ [] := hne a (by simp)
      have ha' : 0 < a.length := List.length_pos.mpr ha
      cases rest with
      | nil => simpa [minLen] using ha'
      | cons b tl =>
          simp only [minLen]
          exact lt_min ha' (ih (by simp) (fun l hl => hne l (by simp [hl])))

theorem minLen_zero_mem : ∀ (iters : List (List (Option ℚ))), iters ≠ [] →
    minLen iters = 0 → ∃ l ∈ iters, l = [] := by
  intro iters hne hz
  by_contra hc
  push_neg at hc
  exact absurd hz (Nat.pos_iff_ne_zero.mp (minLen_pos iters hne hc))

theorem minLen_map_tail : ∀ (iters : List (List (Option ℚ))), iters ≠ [] →
    (∀ l ∈ iters, l ≠ []) →
    minLen (iters.map List.tail) = minLen iters - 1 := by
  intro iters
  induction iters with
  | nil => intro h; exact absurd rfl h
  | cons a rest ih =>
      intro _ hne
      have ha : 0 < a.length := List.length_pos.mpr (hne a (by simp))
      cases rest with
      | nil => simp [minLen, List.length_tail]
      | cons b tl =>
          have hrec := ih (by simp) (fun l hl => hne l (by simp [hl]))
          have hposr : 0 < minLen (b :: tl) :=
            minLen_pos (b :: tl) (by simp)
              (fun l hl => hne l (by simp [hl]))
          simp only [List.map_cons, minLen, List.length_tail] at hrec ⊢
          omega

theorem stepSum_none_of_mem : ∀ (iters : List (List (Option ℚ))) (acc : ℚ),
    (∃ l ∈ iters, l = []) → stepSum iters acc = none := by
  intro iters
  induction iters with
  | nil => intro acc h; simp at h
  | cons a rest ih =>
      intro acc h
      cases a with
      | nil => rfl
      | cons v tl =>
          rcases h with ⟨l, hl, hleq⟩
          rcases List.mem_cons.mp hl with h' | h'
          · rw [h'] at hleq; simp at hleq
          · simp only [stepSum]
            rw [ih _ ⟨l, h', hleq⟩]

theorem stepSum_some_of_ne : ∀ (iters : List (List (Option ℚ))) (acc : ℚ),
    (∀ l ∈ iters, l ≠ []) →
    ∃ s, stepSum iters acc = some (s, iters.map List.tail) := by
  intro iters
  induction iters with
  | nil => intro acc _; exact ⟨acc, rfl⟩
  | cons a rest ih =>
      intro acc hne
      cases a with
      | nil => exact absurd rfl (hne [] (by simp))
      | cons v tl =>
          cases v with
          | some x =>
              obtain ⟨s, hs⟩ := ih (acc + x) (fun l hl => hne l (by simp [hl]))
              refine ⟨s, ?_⟩
              simp only [stepSum]
              rw [hs]
              rfl
          | none =>
              obtain ⟨s, hs⟩ := ih acc (fun l hl => hne l (by simp [hl]))
              refine ⟨s, ?_⟩
              simp only [stepSum]
              rw [hs]
              rfl

theorem stepSum_some_all_ne : ∀ (iters : List (List (Option ℚ))) (acc : ℚ)
    (r : ℚ × List (List (Option ℚ))), stepSum iters acc = some r →
    ∀ l ∈ iters, l ≠ [] := by
  intro iters acc r hr l hl hleq
  rw [stepSum_none_of_mem iters acc ⟨l, hl, hleq⟩] at hr
  exact Option.noConfusion hr

theorem graphsMaxLoop_nil : ∀ (fuel : Nat) (mx : ℚ) (total : Nat),
    graphsMaxLoop fuel [] mx total = none := by
  intro fuel
  induction fuel with
  | zero => intro mx total; rfl
  | succ n ih =>
      intro mx total
      simp only [graphsMaxLoop, stepSum]
      exact ih _ _

theorem graphsMaxLoop_term : ∀ (fuel : Nat) (iters : List (List (Option ℚ)))
    (mx : ℚ) (total : Nat), iters ≠ [] → minLen iters < fuel →
    ∃ m, graphsMaxLoop fuel iters mx total = some (m, total + minLen iters) := by
  intro fuel
  induction fuel with
  | zero => intro iters mx total _ h; omega
  | succ n ih =>
      intro iters mx total hne hlt
      by_cases hz : minLen iters = 0
      · obtain ⟨l, hl, hleq⟩ := minLen_zero_mem iters hne hz
        refine ⟨mx, ?_⟩
        simp only [graphsMaxLoop]
        rw [stepSum_none_of_mem iters 0 ⟨l, hl, hleq⟩, hz]
        rfl
      · have hall : ∀ l ∈ iters, l ≠ [] := by
          intro l hl hleq
          have hml := minLen_le_of_mem iters l hl
          rw [hleq] at hml
          simp at hml
          exact hz hml
        obtain ⟨s, hs⟩ := stepSum_some_of_ne iters 0 hall
        have hmt : minLen (iters.map List.tail) = minLen iters - 1 :=
          minLen_map_tail iters hne hall
        obtain ⟨m, hm⟩ := ih (iters.map List.tail) (Max.max mx s) (total + 1)
          (by
            intro hmap
            exact hne (List.map_eq_nil_iff.mp hmap))
          (by omega)
        refine ⟨m, ?_⟩
        simp only [graphsMaxLoop]
        rw [hs]
        have harith : total + 1 + minLen (iters.map List.tail)
            = total + minLen iters := by omega
        rw [harith] at hm
        exact hm

theorem graphsMaxLoop_total : ∀ (fuel : Nat) (iters : List (List (Option ℚ)))
    (mx : ℚ) (total : Nat) (m : ℚ) (t : Nat), iters ≠ [] →
    graphsMaxLoop fuel iters mx total = some (m, t) →
    t = total + minLen iters := by
  intro fuel
  induction fuel with
  | zero => intro iters mx total m t _ h; exact Option.noConfusion h
  | succ n ih =>
      intro iters mx total m t hne hres
      simp only [graphsMaxLoop] at hres
      cases hstep : stepSum iters 0 with
      | none =>
          rw [hstep] at hres
          simp only [Option.some.injEq, Prod.mk.injEq] at hres
          have hex : ∃ l ∈ iters, l = [] := by
            by_contra hc
            push_neg at hc
            obtain ⟨s, hs⟩ := stepSum_some_of_ne iters 0 hc
            rw [hs] at hstep
            exact Option.noConfusion hstep
          obtain ⟨l, hl, hleq⟩ := hex
          have hml : minLen iters ≤ 0 := by
            have hle := minLen_le_of_mem iters l hl
            rw [hleq] at hle
            simpa using hle
          omega
      | some p =>
          obtain ⟨s', iters'⟩ := p
          rw [hstep] at hres
          have hall := stepSum_some_all_ne iters 0 (s', iters') hstep
          obtain ⟨s, hs⟩ := stepSum_some_of_ne iters 0 hall
          rw [hs] at hstep
          simp only [Option.some.injEq, Prod.mk.injEq] at hstep
          obtain ⟨hs1, hs2⟩ := hstep
          rw [← hs2, ← hs1] at hres
          have hml := minLen_map_tail iters hne hall
          have hpos := minLen_pos iters hne hall
          have hrec := ih (iters.map List.tail) (Max.max mx s) (total + 1) m t
            (by
              intro hmap
              exact hne (List.map_eq_nil_iff.mp hmap))
            hres
          omega

theorem stepRaster_none_of_mem (ft : FontTable) (layer : Nat)
    (oh : Bool) (ysc : ℚ) (x0 x1 : Int) :
    ∀ (iters : List (List (Option ℚ) × Color)) (y0 : Int)
      (g : OverlayGeometry), (∃ p ∈ iters, p.1 = []) →
    (stepRaster ft layer oh ysc x0 x1 iters y0 g).1 = none := by
  intro iters
  induction iters with
  | nil => intro y0 g h; simp at h
  | cons p rest ih =>
      intro y0 g h
      obtain ⟨l, c⟩ := p
      cases l with
      | nil => rfl
      | cons v tl =>
          have hrest : ∃ q ∈ rest, q.1 = [] := by
            rcases h with ⟨q, hq, hq1⟩
            rcases List.mem_cons.mp hq with h' | h'
            · rw [h'] at hq1; simp at hq1
            · exact ⟨q, h', hq1⟩
          cases v with
          | some val =>
              simp only [stepRaster]
              rw [ih _ _ hrest]
              rfl
          | none =>
              simp only [stepRaster]
              rw [ih _ _ hrest]
              rfl

theorem stepRaster_some_of_ne (ft : FontTable) (layer : Nat)
    (oh : Bool) (ysc : ℚ) (x0 x1 : Int) :
    ∀ (iters : List (List (Option ℚ) × Color)) (y0 : Int)
      (g : OverlayGeometry), (∀ p ∈ iters, p.1 ≠ []) →
    ∃ g', stepRaster ft layer oh ysc x0 x1 iters y0 g
      = (some (iters.map (fun p => (p.1.tail, p.2))), g') := by
  intro iters
  induction iters with
  | nil => intro y0 g _; exact ⟨g, rfl⟩
  | cons p rest ih =>
      intro y0 g hne
      obtain ⟨l, c⟩ := p
      cases l with
      | nil => exact absurd rfl (hne ([], c) (by simp))
      | cons v tl =>
          cases v with
          | some val =>
              obtain ⟨g', hg⟩ := ih
                (i32OfRat ((y0 : ℚ) - val * ysc))
                (g.push_rectangle ft layer
                  (if oh then (⟨y0, x0⟩, ⟨i32OfRat ((y0 : ℚ) - val * ysc), x1⟩)
                   else (⟨x0, y0⟩, ⟨x1, i32OfRat ((y0 : ℚ) - val * ysc)⟩)) c c)
                (fun q hq => hne q (by simp [hq]))
              refine ⟨g', ?_⟩
              simp only [stepRaster]
              rw [hg]
              rfl
          | none =>
              obtain ⟨g', hg⟩ := ih y0 g (fun q hq => hne q (by simp [hq]))
              refine ⟨g', ?_⟩
              simp only [stepRaster]
              rw [hg]
              rfl

theorem map_fst_tail (iters : List (List (Option ℚ) × Color)) :
    (iters.map (fun p => (p.1.tail, p.2))).map Prod.fst
      = (iters.map Prod.fst).map List.tail := by
  induction iters with
  | nil => rfl
  | cons p rest ih => simp [ih]

theorem graphsRasterLoop_term (ft : FontTable) (layer : Nat) (oh : Bool)
    (ysc : ℚ) (w yBottom : Int) :
    ∀ (fuel : Nat) (iters : List (List (Option ℚ) × Color)) (x0 : Int)
      (g : OverlayGeometry), iters ≠ [] →
      minLen (iters.map Prod.fst) < fuel →
    ∃ g', graphsRasterLoop ft layer oh ysc w yBottom fuel iters x0 g
      = some g' := by
  intro fuel
  induction fuel with
  | zero => intro iters x0 g _ h; omega
  | succ n ih =>
      intro iters x0 g hne hlt
      by_cases hz : minLen (iters.map Prod.fst) = 0
      · obtain ⟨l, hl, hleq⟩ := minLen_zero_mem (iters.map Prod.fst)
          (by simpa using hne) hz
        obtain ⟨p, hp, hpeq⟩ := List.mem_map.mp hl
        have hmem : ∃ q ∈ iters, q.1 = [] := ⟨p, hp, by rw [hpeq]; exact hleq⟩
        have hnone := stepRaster_none_of_mem ft layer oh ysc x0 (x0 + w)
          iters yBottom g hmem
        rcases hstep : stepRaster ft layer oh ysc x0 (x0 + w) iters yBottom g
          with ⟨o, g2⟩
        rw [hstep] at hnone
        simp at hnone
        subst hnone
        refine ⟨g2, ?_⟩
        simp only [graphsRasterLoop]
        rw [hstep]
      · have hall : ∀ p ∈ iters, p.1 ≠ [] := by
          intro p hp hpeq
          have hml := minLen_le_of_mem (iters.map Prod.fst) p.1
            (List.mem_map.mpr ⟨p, hp, rfl⟩)
          rw [hpeq] at hml
          simp at hml
          exact hz hml
        obtain ⟨g', hg⟩ := stepRaster_some_of_ne ft layer oh ysc x0 (x0 + w)
          iters yBottom g hall
        have hmt : minLen ((iters.map (fun p => (p.1.tail, p.2))).map Prod.fst)
            = minLen (iters.map Prod.fst) - 1 := by
          rw [map_fst_tail]
          exact minLen_map_tail (iters.map Prod.fst) (by simpa using hne)
            (by
              intro l hl hleq
              obtain ⟨p, hp, hpeq⟩ := List.mem_map.mp hl
              exact hall p hp (by rw [hpeq]; exact hleq))
        obtain ⟨gf, hgf⟩ := ih (iters.map (fun p => (p.1.tail, p.2))) (x0 + w) g'
          (by
            intro hmap
            exact hne (List.map_eq_nil_iff.mp hmap))
          (by omega)
        refine ⟨gf, ?_⟩
        simp only [graphsRasterLoop]
        rw [hg]
        exact hgf

end GraphsLoopLemmas

/-- C5 counterexample: on the empty counter list (equally, any list in
which no counter has history) the first unbounded loop of `draw_graphs`
can never take its only exit (`break 'outer` inside the iterator walk), so
the call does not terminate: in the fuel-indexed model no fuel bound
suffices. -/
theorem draw_graphs_empty_input_diverges :
    ¬ drawGraphsTerminates exampleFontTable FRONT_LAYER
        (⟨0, 0⟩, ⟨100, 100⟩) [] 0 Orientation.Vertical Overlay.new := by
  rintro ⟨fuel, ov', h⟩
  unfold draw_graphs at h
  simp only [show graphsIters [] = [] from rfl, List.map_nil,
    graphsMaxLoop_nil] at h
  exact Option.noConfusion h

/-- C5 (amended): whenever at least one input counter exposes history,
`draw_graphs` terminates, walking the available histories in lock-step and
stopping as soon as any one series' iterator is exhausted: whenever the
counting pass completes, the number of slots it walked is exactly the
shortest available history length (all series are implicitly truncated to
the shortest history).  With no available histories the walk never
terminates, so the claim's "including the empty list" case fails. -/
theorem draw_graphs_truncates_to_shortest (ft : FontTable) (layer : Nat)
    (rect : Point × Point) (counters : List Counter) (reference_value : ℚ)
    (orientation : Orientation) (ov : Overlay)
    (hne : graphsIters counters ≠ []) :
    drawGraphsTerminates ft layer rect counters reference_value orientation ov
    ∧ (∀ fuel (m : ℚ) (t : Nat),
        graphsMaxLoop fuel ((graphsIters counters).map Prod.fst) (-f32Max) 0
          = some (m, t) →
        t = minLen ((graphsIters counters).map Prod.fst)) := by
  have hvne : (graphsIters counters).map Prod.fst ≠ [] := by
    intro hmap
    exact hne (List.map_eq_nil_iff.mp hmap)
  constructor
  · obtain ⟨m, hm⟩ := graphsMaxLoop_term
      (minLen ((graphsIters counters).map Prod.fst) + 1)
      ((graphsIters counters).map Prod.fst) (-f32Max) 0 hvne (by omega)
    refine ⟨minLen ((graphsIters counters).map Prod.fst) + 1, ?_⟩
    simp only [draw_graphs, hm]
    obtain ⟨g', hg⟩ := graphsRasterLoop_term ft layer
      (decide (orientation = Orientation.Horizontal))
      _ _ _ (minLen ((graphsIters counters).map Prod.fst) + 1)
      (graphsIters counters) _ ov.geometry hne (by omega)
    rw [hg]
    exact ⟨_, rfl⟩
  · intro fuel m t hres
    have := graphsMaxLoop_total fuel ((graphsIters counters).map Prod.fst)
      (-f32Max) 0 m t hvne hres
    omega

/-- C5 amended-claim witness: one counter with a two-slot history. -/
theorem draw_graphs_truncates_to_shortest_witness :
    drawGraphsTerminates exampleFontTable FRONT_LAYER (⟨0, 0⟩, ⟨100, 100⟩)
      [(Counter.new exampleDescriptor).enable_history 2] 0
      Orientation.Vertical Overlay.new :=
  (draw_graphs_truncates_to_shortest exampleFontTable FRONT_LAYER
    (⟨0, 0⟩, ⟨100, 100⟩) [(Counter.new exampleDescriptor).enable_history 2] 0
    Orientation.Vertical Overlay.new (by decide)).1

end RustDebug
